import Mathlib

/-!
Shallow embedding of `aphrodite/modeling/layers/rotary_embedding.py`.

Tensors are modelled as `List ℝ` (1-D) and `List (List ℝ)` (2-D); the
single-precision float arithmetic of the source is idealised as exact real
arithmetic.  `torch.arange(0, n, 2)` becomes `List.range ((n + 1) / 2)`
with element `i ↦ 2 * i`, `torch.arange(x)` for a real endpoint `x` becomes
`List.range ⌈x⌉₊`, elementwise tensor arithmetic becomes `List.map` /
`List.zipWith`, and `torch.cat` along the last dimension becomes `++` on
rows.  `math.floor` / `math.ceil` (which return Python ints) become
`Int.floor` / `Int.ceil`.
-/

noncomputable section

namespace RotaryEmbedding

/-- `RotaryEmbedding._compute_inv_freq`:
`1.0 / (base ** (torch.arange(0, rotary_dim, 2).float() / rotary_dim))`. -/
def compute_inv_freq (base : ℝ) (rotary_dim : ℕ) : List ℝ :=
  (List.range ((rotary_dim + 1) / 2)).map fun i : ℕ =>
    1 / base ^ ((2 * (i : ℝ)) / (rotary_dim : ℝ))

/-- `RotaryEmbedding._compute_cos_sin_cache`: outer product of positions
`t = torch.arange(max_position_embeddings)` with `inv_freq`, then
`cat(cos, sin)` along the last dimension. -/
def compute_cos_sin_cache (base : ℝ) (rotary_dim max_position_embeddings : ℕ) :
    List (List ℝ) :=
  let inv_freq := compute_inv_freq base rotary_dim
  (List.range max_position_embeddings).map fun p : ℕ =>
    (inv_freq.map fun f => Real.cos ((p : ℝ) * f)) ++
      (inv_freq.map fun f => Real.sin ((p : ℝ) * f))

end RotaryEmbedding

namespace LinearScalingRotaryEmbedding

/-- `LinearScalingRotaryEmbedding._compute_cos_sin_cache`:
`max_len = max_position_embeddings * scaling_factor`,
`t = torch.arange(max_len) / scaling_factor`, then the shared outer
product / `cat(cos, sin)` assembly. -/
def compute_cos_sin_cache (base : ℝ) (rotary_dim max_position_embeddings : ℕ)
    (scaling_factor : ℝ) : List (List ℝ) :=
  let inv_freq := RotaryEmbedding.compute_inv_freq base rotary_dim
  let max_len := (max_position_embeddings : ℝ) * scaling_factor
  (List.range ⌈max_len⌉₊).map fun p : ℕ =>
    let t := (p : ℝ) / scaling_factor
    (inv_freq.map fun f => Real.cos (t * f)) ++
      (inv_freq.map fun f => Real.sin (t * f))

end LinearScalingRotaryEmbedding

namespace DynamicNTKScalingRotaryEmbedding

/-- `DynamicNTKScalingRotaryEmbedding._compute_cos_sin_cache`:
`max_len = max_position_embeddings * scaling_factor`, a modified base
`base * ((scaling_factor * max_len / max_position_embeddings) -
(scaling_factor - 1)) ** (rotary_dim / (rotary_dim - 2))`, inverse
frequencies from the modified base, uncompressed positions
`t = torch.arange(max_len)`. -/
def compute_cos_sin_cache (base : ℝ) (rotary_dim max_position_embeddings : ℕ)
    (scaling_factor : ℝ) : List (List ℝ) :=
  let max_len := (max_position_embeddings : ℝ) * scaling_factor
  let base' := base *
    ((scaling_factor * max_len / (max_position_embeddings : ℝ)) -
        (scaling_factor - 1)) ^
      ((rotary_dim : ℝ) / ((rotary_dim : ℝ) - 2))
  let inv_freq := RotaryEmbedding.compute_inv_freq base' rotary_dim
  (List.range ⌈max_len⌉₊).map fun p : ℕ =>
    (inv_freq.map fun f => Real.cos ((p : ℝ) * f)) ++
      (inv_freq.map fun f => Real.sin ((p : ℝ) * f))

end DynamicNTKScalingRotaryEmbedding

/-- `_yarn_find_correction_dim`:
`(dim * log(max_position_embeddings / (num_rotations * 2 * pi))) / (2 * log(base))`. -/
def yarn_find_correction_dim (num_rotations : ℝ) (dim : ℕ) (base : ℝ)
    (max_position_embeddings : ℕ) : ℝ :=
  ((dim : ℝ) *
      Real.log ((max_position_embeddings : ℝ) /
        (num_rotations * 2 * Real.pi))) /
    (2 * Real.log base)

/-- `_yarn_find_correction_range`: floor/ceil of the correction dimension at
the two rotation counts, clamped into `[0, dim - 1]`. -/
def yarn_find_correction_range (low_rot high_rot : ℝ) (dim : ℕ) (base : ℝ)
    (max_position_embeddings : ℕ) : ℤ × ℤ :=
  let low := ⌊yarn_find_correction_dim low_rot dim base max_position_embeddings⌋
  let high := ⌈yarn_find_correction_dim high_rot dim base max_position_embeddings⌉
  (max low 0, min high ((dim : ℤ) - 1))

/-- `_yarn_linear_ramp_mask`: if `low == high`, nudge `high` by `0.001`;
then `clamp((arange(dim) - low) / (high - low), 0, 1)`. -/
def yarn_linear_ramp_mask (low high : ℝ) (dim : ℕ) : List ℝ :=
  let high' := if low = high then high + 0.001 else high
  (List.range dim).map fun i : ℕ =>
    min (max (((i : ℝ) - low) / (high' - low)) 0) 1

/-- `_yarn_get_mscale`: `1.0` for `scale <= 1`, else `0.1 * log(scale) + 1.0`. -/
def yarn_get_mscale (scale : ℝ) : ℝ :=
  if scale ≤ 1 then 1.0 else 0.1 * Real.log scale + 1.0

namespace YaRNScalingRotaryEmbedding

/-- `YaRNScalingRotaryEmbedding._compute_inv_freq`: blend of interpolated
(`1 / (scaling_factor * pos_freqs)`) and extrapolated (`1 / pos_freqs`)
inverse frequencies through the linear ramp mask obtained from the
correction range at `(beta_fast, beta_slow)`. -/
def compute_inv_freq (base : ℝ) (rotary_dim max_position_embeddings : ℕ)
    (beta_fast beta_slow extrapolation_factor scaling_factor : ℝ) : List ℝ :=
  let pos_freqs := (List.range ((rotary_dim + 1) / 2)).map fun i : ℕ =>
    base ^ ((2 * (i : ℝ)) / (rotary_dim : ℝ))
  let inv_freq_extrapolation := pos_freqs.map fun x => 1 / x
  let inv_freq_interpolation := pos_freqs.map fun x => 1 / (scaling_factor * x)
  let c := yarn_find_correction_range beta_fast beta_slow rotary_dim base
    max_position_embeddings
  let inv_freq_mask :=
    (yarn_linear_ramp_mask (c.1 : ℝ) (c.2 : ℝ) (rotary_dim / 2)).map fun r =>
      (1 - r) * extrapolation_factor
  List.zipWith (fun a b => a + b)
    (List.zipWith (fun a m => a * (1 - m)) inv_freq_interpolation inv_freq_mask)
    (List.zipWith (fun a m => a * m) inv_freq_extrapolation inv_freq_mask)

/-- `YaRNScalingRotaryEmbedding._compute_cos_sin_cache`: uncompressed
positions over `max_position_embeddings * scaling_factor`, each cosine and
sine entry multiplied by `mscale = _yarn_get_mscale(scaling_factor) * attn_factor`. -/
def compute_cos_sin_cache (base : ℝ) (rotary_dim max_position_embeddings : ℕ)
    (scaling_factor extrapolation_factor attn_factor beta_fast beta_slow : ℝ) :
    List (List ℝ) :=
  let mscale := yarn_get_mscale scaling_factor * attn_factor
  let inv_freq := compute_inv_freq base rotary_dim max_position_embeddings
    beta_fast beta_slow extrapolation_factor scaling_factor
  (List.range ⌈(max_position_embeddings : ℝ) * scaling_factor⌉₊).map fun p : ℕ =>
    (inv_freq.map fun f => Real.cos ((p : ℝ) * f) * mscale) ++
      (inv_freq.map fun f => Real.sin ((p : ℝ) * f) * mscale)

end YaRNScalingRotaryEmbedding

/-- Entry at row `p`, column `j` of a 2-D cache, as an `Option`. -/
def entry2 (cache : List (List ℝ)) (p j : ℕ) : Option ℝ :=
  (cache[p]?).bind fun row => row[j]?

/-- Length of row `p` of a 2-D cache, as an `Option`. -/
def row_len (cache : List (List ℝ)) (p : ℕ) : Option ℕ :=
  (cache[p]?).map List.length

theorem range_map_getElem {α : Type} (n : ℕ) (f : ℕ → α) (p : ℕ) (hp : p < n) :
    ((List.range n).map f)[p]? = some (f p) := by
  simp [List.getElem?_map, List.getElem?_range, hp]

theorem entry2_range_map (n : ℕ) (f : ℕ → List ℝ) (p j : ℕ) (hp : p < n) :
    entry2 ((List.range n).map f) p j = (f p)[j]? := by
  simp [entry2, range_map_getElem n f p hp]

theorem row_len_range_map (n : ℕ) (f : ℕ → List ℝ) (p : ℕ) (hp : p < n) :
    row_len ((List.range n).map f) p = some (f p).length := by
  simp [row_len, range_map_getElem n f p hp]

theorem map_append_getElem_left (l : List ℝ) (f g : ℝ → ℝ) (j : ℕ)
    (hj : j < l.length) :
    (l.map f ++ l.map g)[j]? = (l[j]?).map f := by
  rw [List.getElem?_append, if_pos (by simpa using hj), List.getElem?_map]

theorem map_append_getElem_right (l : List ℝ) (f g : ℝ → ℝ) (j : ℕ) :
    (l.map f ++ l.map g)[l.length + j]? = (l[j]?).map g := by
  rw [List.getElem?_append, if_neg (by simp only [List.length_map]; omega)]
  simp only [List.length_map, Nat.add_sub_cancel_left, List.getElem?_map]

theorem compute_inv_freq_length (base : ℝ) (rotary_dim : ℕ) :
    (RotaryEmbedding.compute_inv_freq base rotary_dim).length =
      (rotary_dim + 1) / 2 := by
  unfold RotaryEmbedding.compute_inv_freq
  rw [List.length_map, List.length_range]

theorem compute_inv_freq_getElem (base : ℝ) (rotary_dim j : ℕ)
    (hj : j < (rotary_dim + 1) / 2) :
    (RotaryEmbedding.compute_inv_freq base rotary_dim)[j]? =
      some (1 / base ^ ((2 * (j : ℝ)) / (rotary_dim : ℝ))) := by
  unfold RotaryEmbedding.compute_inv_freq
  rw [List.getElem?_map, List.getElem?_range hj]
  rfl

theorem zipWith_getElem_some {α β γ : Type} (f : α → β → γ) (l₁ : List α)
    (l₂ : List β) (i : ℕ) (a : α) (b : β) (h₁ : l₁[i]? = some a)
    (h₂ : l₂[i]? = some b) :
    (List.zipWith f l₁ l₂)[i]? = some (f a b) := by
  simp [List.getElem?_zipWith', h₁, h₂]

theorem map_append_length (l : List ℝ) (f g : ℝ → ℝ) :
    (l.map f ++ l.map g).length = 2 * l.length := by
  simp; omega

theorem base_cache_length (b : ℝ) (rd m : ℕ) :
    (RotaryEmbedding.compute_cos_sin_cache b rd m).length = m := by
  simp [RotaryEmbedding.compute_cos_sin_cache]

theorem base_cache_row_len (b : ℝ) (rd m p : ℕ) (hp : p < m) :
    row_len (RotaryEmbedding.compute_cos_sin_cache b rd m) p =
      some (2 * ((rd + 1) / 2)) := by
  simp only [RotaryEmbedding.compute_cos_sin_cache]
  rw [row_len_range_map _ _ _ hp, map_append_length, compute_inv_freq_length]

theorem base_cache_entry (b : ℝ) (rd m p j : ℕ) (hp : p < m)
    (hj : j < (rd + 1) / 2) :
    entry2 (RotaryEmbedding.compute_cos_sin_cache b rd m) p j =
      ((RotaryEmbedding.compute_inv_freq b rd)[j]?).map
        (fun f => Real.cos ((p : ℝ) * f)) ∧
    entry2 (RotaryEmbedding.compute_cos_sin_cache b rd m) p ((rd + 1) / 2 + j) =
      ((RotaryEmbedding.compute_inv_freq b rd)[j]?).map
        (fun f => Real.sin ((p : ℝ) * f)) := by
  have hj' : j < (RotaryEmbedding.compute_inv_freq b rd).length := by
    rw [compute_inv_freq_length]; exact hj
  constructor
  · simp only [RotaryEmbedding.compute_cos_sin_cache]
    rw [entry2_range_map _ _ _ _ hp, map_append_getElem_left _ _ _ _ hj']
  · simp only [RotaryEmbedding.compute_cos_sin_cache]
    rw [entry2_range_map _ _ _ _ hp,
      show (rd + 1) / 2 + j = (RotaryEmbedding.compute_inv_freq b rd).length + j by
        rw [compute_inv_freq_length],
      map_append_getElem_right]

theorem linear_cache_length (b : ℝ) (rd m : ℕ) (sf : ℝ) :
    (LinearScalingRotaryEmbedding.compute_cos_sin_cache b rd m sf).length =
      ⌈(m : ℝ) * sf⌉₊ := by
  simp [LinearScalingRotaryEmbedding.compute_cos_sin_cache]

theorem linear_cache_row_len (b : ℝ) (rd m : ℕ) (sf : ℝ) (p : ℕ)
    (hp : p < ⌈(m : ℝ) * sf⌉₊) :
    row_len (LinearScalingRotaryEmbedding.compute_cos_sin_cache b rd m sf) p =
      some (2 * ((rd + 1) / 2)) := by
  simp only [LinearScalingRotaryEmbedding.compute_cos_sin_cache]
  rw [row_len_range_map _ _ _ hp, map_append_length, compute_inv_freq_length]

theorem linear_cache_entry (b : ℝ) (rd m : ℕ) (sf : ℝ) (p j : ℕ)
    (hp : p < ⌈(m : ℝ) * sf⌉₊) (hj : j < (rd + 1) / 2) :
    entry2 (LinearScalingRotaryEmbedding.compute_cos_sin_cache b rd m sf) p j =
      ((RotaryEmbedding.compute_inv_freq b rd)[j]?).map
        (fun f => Real.cos (((p : ℝ) / sf) * f)) ∧
    entry2 (LinearScalingRotaryEmbedding.compute_cos_sin_cache b rd m sf) p
        ((rd + 1) / 2 + j) =
      ((RotaryEmbedding.compute_inv_freq b rd)[j]?).map
        (fun f => Real.sin (((p : ℝ) / sf) * f)) := by
  have hj' : j < (RotaryEmbedding.compute_inv_freq b rd).length := by
    rw [compute_inv_freq_length]; exact hj
  constructor
  · simp only [LinearScalingRotaryEmbedding.compute_cos_sin_cache]
    rw [entry2_range_map _ _ _ _ hp, map_append_getElem_left _ _ _ _ hj']
  · simp only [LinearScalingRotaryEmbedding.compute_cos_sin_cache]
    rw [entry2_range_map _ _ _ _ hp,
      show (rd + 1) / 2 + j = (RotaryEmbedding.compute_inv_freq b rd).length + j by
        rw [compute_inv_freq_length],
      map_append_getElem_right]

/-- The modified base used by the dynamic-NTK variant, as written in
`DynamicNTKScalingRotaryEmbedding._compute_cos_sin_cache`. -/
def ntk_base (b : ℝ) (rd m : ℕ) (sf : ℝ) : ℝ :=
  b * ((sf * ((m : ℝ) * sf) / (m : ℝ)) - (sf - 1)) ^
    ((rd : ℝ) / ((rd : ℝ) - 2))

theorem ntk_cache_eq (b : ℝ) (rd m : ℕ) (sf : ℝ) :
    DynamicNTKScalingRotaryEmbedding.compute_cos_sin_cache b rd m sf =
      (List.range ⌈(m : ℝ) * sf⌉₊).map fun p : ℕ =>
        ((RotaryEmbedding.compute_inv_freq (ntk_base b rd m sf) rd).map
            fun f => Real.cos ((p : ℝ) * f)) ++
          ((RotaryEmbedding.compute_inv_freq (ntk_base b rd m sf) rd).map
            fun f => Real.sin ((p : ℝ) * f)) := by
  simp only [DynamicNTKScalingRotaryEmbedding.compute_cos_sin_cache, ntk_base]

theorem ntk_cache_length (b : ℝ) (rd m : ℕ) (sf : ℝ) :
    (DynamicNTKScalingRotaryEmbedding.compute_cos_sin_cache b rd m sf).length =
      ⌈(m : ℝ) * sf⌉₊ := by
  rw [ntk_cache_eq]; simp

theorem ntk_cache_row_len (b : ℝ) (rd m : ℕ) (sf : ℝ) (p : ℕ)
    (hp : p < ⌈(m : ℝ) * sf⌉₊) :
    row_len (DynamicNTKScalingRotaryEmbedding.compute_cos_sin_cache b rd m sf)
      p = some (2 * ((rd + 1) / 2)) := by
  rw [ntk_cache_eq, row_len_range_map _ _ _ hp, map_append_length,
    compute_inv_freq_length]

theorem ntk_cache_entry (b : ℝ) (rd m : ℕ) (sf : ℝ) (p j : ℕ)
    (hp : p < ⌈(m : ℝ) * sf⌉₊) (hj : j < (rd + 1) / 2) :
    entry2 (DynamicNTKScalingRotaryEmbedding.compute_cos_sin_cache b rd m sf)
        p j =
      ((RotaryEmbedding.compute_inv_freq (ntk_base b rd m sf) rd)[j]?).map
        (fun f => Real.cos ((p : ℝ) * f)) ∧
    entry2 (DynamicNTKScalingRotaryEmbedding.compute_cos_sin_cache b rd m sf)
        p ((rd + 1) / 2 + j) =
      ((RotaryEmbedding.compute_inv_freq (ntk_base b rd m sf) rd)[j]?).map
        (fun f => Real.sin ((p : ℝ) * f)) := by
  have hj' : j < (RotaryEmbedding.compute_inv_freq (ntk_base b rd m sf) rd).length := by
    rw [compute_inv_freq_length]; exact hj
  constructor
  · rw [ntk_cache_eq, entry2_range_map _ _ _ _ hp,
      map_append_getElem_left _ _ _ _ hj']
  · rw [ntk_cache_eq, entry2_range_map _ _ _ _ hp,
      show (rd + 1) / 2 + j =
          (RotaryEmbedding.compute_inv_freq (ntk_base b rd m sf) rd).length + j by
        rw [compute_inv_freq_length],
      map_append_getElem_right]

theorem yarn_inv_freq_length (b : ℝ) (rd m : ℕ) (bf bs ef sf : ℝ) :
    (YaRNScalingRotaryEmbedding.compute_inv_freq b rd m bf bs ef sf).length =
      min ((rd + 1) / 2) (rd / 2) := by
  simp only [YaRNScalingRotaryEmbedding.compute_inv_freq, yarn_linear_ramp_mask]
  simp [List.length_zipWith]

theorem yarn_cache_length (b : ℝ) (rd m : ℕ) (sf ef af bf bs : ℝ) :
    (YaRNScalingRotaryEmbedding.compute_cos_sin_cache b rd m sf ef af bf
      bs).length = ⌈(m : ℝ) * sf⌉₊ := by
  simp [YaRNScalingRotaryEmbedding.compute_cos_sin_cache]

theorem yarn_cache_row_len (b : ℝ) (rd m : ℕ) (sf ef af bf bs : ℝ) (p : ℕ)
    (hp : p < ⌈(m : ℝ) * sf⌉₊) :
    row_len (YaRNScalingRotaryEmbedding.compute_cos_sin_cache b rd m sf ef af
      bf bs) p =
      some (2 * min ((rd + 1) / 2) (rd / 2)) := by
  simp only [YaRNScalingRotaryEmbedding.compute_cos_sin_cache]
  rw [row_len_range_map _ _ _ hp, map_append_length, yarn_inv_freq_length]

theorem yarn_cache_entry (b : ℝ) (rd m : ℕ) (sf ef af bf bs : ℝ) (p j : ℕ)
    (hp : p < ⌈(m : ℝ) * sf⌉₊) (hj : j < min ((rd + 1) / 2) (rd / 2)) :
    entry2 (YaRNScalingRotaryEmbedding.compute_cos_sin_cache b rd m sf ef af
        bf bs) p j =
      ((YaRNScalingRotaryEmbedding.compute_inv_freq b rd m bf bs ef sf)[j]?).map
        (fun f => Real.cos ((p : ℝ) * f) * (yarn_get_mscale sf * af)) ∧
    entry2 (YaRNScalingRotaryEmbedding.compute_cos_sin_cache b rd m sf ef af
        bf bs) p (min ((rd + 1) / 2) (rd / 2) + j) =
      ((YaRNScalingRotaryEmbedding.compute_inv_freq b rd m bf bs ef sf)[j]?).map
        (fun f => Real.sin ((p : ℝ) * f) * (yarn_get_mscale sf * af)) := by
  have hj' : j <
      (YaRNScalingRotaryEmbedding.compute_inv_freq b rd m bf bs ef sf).length := by
    rw [yarn_inv_freq_length]; exact hj
  constructor
  · simp only [YaRNScalingRotaryEmbedding.compute_cos_sin_cache]
    rw [entry2_range_map _ _ _ _ hp, map_append_getElem_left _ _ _ _ hj']
  · simp only [YaRNScalingRotaryEmbedding.compute_cos_sin_cache]
    rw [entry2_range_map _ _ _ _ hp,
      show min ((rd + 1) / 2) (rd / 2) + j =
          (YaRNScalingRotaryEmbedding.compute_inv_freq b rd m bf bs ef
            sf).length + j by
        rw [yarn_inv_freq_length],
      map_append_getElem_right]

/-- Claim C1: for every construction with even `rotary_dim ≥ 2` and
`base > 0`, the base-variant inverse-frequency vector has length
`rotary_dim / 2` and `inv_freq[i] = 1 / base ^ (2 * i / rotary_dim)` for
every `i < rotary_dim / 2`. -/
theorem C1_base_inv_freq (base : ℝ) (rotary_dim : ℕ)
    (heven : rotary_dim % 2 = 0) (h2 : 2 ≤ rotary_dim) (hbase : 0 < base) :
    (RotaryEmbedding.compute_inv_freq base rotary_dim).length = rotary_dim / 2 ∧
    ∀ i, i < rotary_dim / 2 →
      (RotaryEmbedding.compute_inv_freq base rotary_dim)[i]? =
        some (1 / base ^ ((2 * (i : ℝ)) / (rotary_dim : ℝ))) := by
  constructor
  · rw [compute_inv_freq_length]; omega
  · intro i hi
    exact compute_inv_freq_getElem base rotary_dim i (by omega)

/-- Witness for C1 at `base = 10000`, `rotary_dim = 4`. -/
theorem C1_base_inv_freq_witness :
    (4 % 2 = 0 ∧ 2 ≤ 4 ∧ (0 : ℝ) < 10000) ∧
    ((RotaryEmbedding.compute_inv_freq 10000 4).length = 4 / 2 ∧
      ∀ i : ℕ, i < 4 / 2 →
        (RotaryEmbedding.compute_inv_freq 10000 4)[i]? =
          some (1 / (10000 : ℝ) ^ ((2 * (i : ℝ)) / ((4 : ℕ) : ℝ)))) :=
  ⟨⟨rfl, by norm_num, by norm_num⟩,
    C1_base_inv_freq 10000 4 rfl (by norm_num) (by norm_num)⟩

end

theorem yarn_unit_inv_freq :
    (YaRNScalingRotaryEmbedding.compute_inv_freq 10000 2 1 32 1 1 1)[0]? =
      some 1 := by
  simp only [YaRNScalingRotaryEmbedding.compute_inv_freq, yarn_linear_ramp_mask]
  norm_num

/-- Claim C2 is refuted for the YaRN variant: at `base = 10000`,
`rotary_dim = 2`, `max_position_embeddings = 1`, `scaling_factor = 1`,
`extrapolation_factor = 1`, `attn_factor = 2`, `beta_fast = 32`,
`beta_slow = 1`, the cache entry at row `0`, column `0` is `2` (the
cosine multiplied by `mscale = 2`), while the cosine of the corresponding
angle `t[0] * inv_freq[0] = 0 * 1` is `1 ≠ 2`. -/
theorem C2_cache_shape_counterexample :
    entry2 (YaRNScalingRotaryEmbedding.compute_cos_sin_cache
      10000 2 1 1 1 2 32 1) 0 0 = some 2 ∧
    (YaRNScalingRotaryEmbedding.compute_inv_freq 10000 2 1 32 1 1 1)[0]? =
      some 1 ∧
    Real.cos ((0 : ℝ) * 1) = 1 ∧ (2 : ℝ) ≠ 1 := by
  refine ⟨?_, yarn_unit_inv_freq, by simp, by norm_num⟩
  have h := (yarn_cache_entry 10000 2 1 1 1 2 32 1 0 0 (by norm_num)
    (by norm_num)).1
  rw [h, yarn_unit_inv_freq]
  simp [yarn_get_mscale]
  norm_num

/-- Claim C2 (amended): for every variant (base, linear, dynamic NTK, YaRN)
constructed with even `rotary_dim`, the built cache has shape
`(effective_max_positions, rotary_dim)` — where
`effective_max_positions = max_position_embeddings * scaling_factor` for the
scaled variants and `= max_position_embeddings` for plain RoPE — and within
each row the columns `[0, rotary_dim/2)` hold cosine values and the columns
`[rotary_dim/2, rotary_dim)` hold sine values of the same angle
`t[p] * inv_freq[j]`, except that for the YaRN variant the cosine and sine
of that angle are each additionally multiplied by `mscale`. -/
theorem C2_cache_shape (b : ℝ) (rd m : ℕ) (sf ef af bf bs : ℝ) (eff : ℕ)
    (heven : rd % 2 = 0) (heff : ((eff : ℕ) : ℝ) = (m : ℝ) * sf) :
    ((RotaryEmbedding.compute_cos_sin_cache b rd m).length = m ∧
      (∀ p, p < m →
        row_len (RotaryEmbedding.compute_cos_sin_cache b rd m) p = some rd) ∧
      ∀ p j : ℕ, p < m → j < rd / 2 →
        entry2 (RotaryEmbedding.compute_cos_sin_cache b rd m) p j =
          ((RotaryEmbedding.compute_inv_freq b rd)[j]?).map
            (fun f => Real.cos ((p : ℝ) * f)) ∧
        entry2 (RotaryEmbedding.compute_cos_sin_cache b rd m) p (rd / 2 + j) =
          ((RotaryEmbedding.compute_inv_freq b rd)[j]?).map
            (fun f => Real.sin ((p : ℝ) * f))) ∧
    ((LinearScalingRotaryEmbedding.compute_cos_sin_cache b rd m sf).length =
        eff ∧
      (∀ p, p < eff →
        row_len (LinearScalingRotaryEmbedding.compute_cos_sin_cache b rd m sf)
          p = some rd) ∧
      ∀ p j : ℕ, p < eff → j < rd / 2 →
        entry2 (LinearScalingRotaryEmbedding.compute_cos_sin_cache b rd m sf)
            p j =
          ((RotaryEmbedding.compute_inv_freq b rd)[j]?).map
            (fun f => Real.cos (((p : ℝ) / sf) * f)) ∧
        entry2 (LinearScalingRotaryEmbedding.compute_cos_sin_cache b rd m sf)
            p (rd / 2 + j) =
          ((RotaryEmbedding.compute_inv_freq b rd)[j]?).map
            (fun f => Real.sin (((p : ℝ) / sf) * f))) ∧
    ((DynamicNTKScalingRotaryEmbedding.compute_cos_sin_cache b rd m
        sf).length = eff ∧
      (∀ p, p < eff →
        row_len (DynamicNTKScalingRotaryEmbedding.compute_cos_sin_cache b rd
          m sf) p = some rd) ∧
      ∀ p j : ℕ, p < eff → j < rd / 2 →
        entry2 (DynamicNTKScalingRotaryEmbedding.compute_cos_sin_cache b rd m
            sf) p j =
          ((RotaryEmbedding.compute_inv_freq (ntk_base b rd m sf) rd)[j]?).map
            (fun f => Real.cos ((p : ℝ) * f)) ∧
        entry2 (DynamicNTKScalingRotaryEmbedding.compute_cos_sin_cache b rd m
            sf) p (rd / 2 + j) =
          ((RotaryEmbedding.compute_inv_freq (ntk_base b rd m sf) rd)[j]?).map
            (fun f => Real.sin ((p : ℝ) * f))) ∧
    ((YaRNScalingRotaryEmbedding.compute_cos_sin_cache b rd m sf ef af bf
        bs).length = eff ∧
      (∀ p, p < eff →
        row_len (YaRNScalingRotaryEmbedding.compute_cos_sin_cache b rd m sf
          ef af bf bs) p = some rd) ∧
      ∀ p j : ℕ, p < eff → j < rd / 2 →
        entry2 (YaRNScalingRotaryEmbedding.compute_cos_sin_cache b rd m sf ef
            af bf bs) p j =
          ((YaRNScalingRotaryEmbedding.compute_inv_freq b rd m bf bs ef
            sf)[j]?).map
            (fun f => Real.cos ((p : ℝ) * f) * (yarn_get_mscale sf * af)) ∧
        entry2 (YaRNScalingRotaryEmbedding.compute_cos_sin_cache b rd m sf ef
            af bf bs) p (rd / 2 + j) =
          ((YaRNScalingRotaryEmbedding.compute_inv_freq b rd m bf bs ef
            sf)[j]?).map
            (fun f => Real.sin ((p : ℝ) * f) * (yarn_get_mscale sf * af))) := by
  have h1 : (rd + 1) / 2 = rd / 2 := by omega
  have hmin : min ((rd + 1) / 2) (rd / 2) = rd / 2 := by omega
  have hceil : ⌈(m : ℝ) * sf⌉₊ = eff := by
    rw [← heff, Nat.ceil_natCast]
  refine ⟨⟨base_cache_length b rd m, fun p hp => ?_, fun p j hp hj => ?_⟩,
    ⟨?_, fun p hp => ?_, fun p j hp hj => ?_⟩,
    ⟨?_, fun p hp => ?_, fun p j hp hj => ?_⟩,
    ⟨?_, fun p hp => ?_, fun p j hp hj => ?_⟩⟩
  · rw [base_cache_row_len b rd m p hp]
    simp only [Option.some.injEq]
    omega
  · have h := base_cache_entry b rd m p j hp (by omega)
    rwa [show (rd + 1) / 2 + j = rd / 2 + j by omega] at h
  · rw [linear_cache_length, hceil]
  · rw [linear_cache_row_len b rd m sf p (by rwa [hceil])]
    simp only [Option.some.injEq]
    omega
  · have h := linear_cache_entry b rd m sf p j (by rwa [hceil]) (by omega)
    rwa [show (rd + 1) / 2 + j = rd / 2 + j by omega] at h
  · rw [ntk_cache_length, hceil]
  · rw [ntk_cache_row_len b rd m sf p (by rwa [hceil])]
    simp only [Option.some.injEq]
    omega
  · have h := ntk_cache_entry b rd m sf p j (by rwa [hceil]) (by omega)
    rwa [show (rd + 1) / 2 + j = rd / 2 + j by omega] at h
  · rw [yarn_cache_length, hceil]
  · rw [yarn_cache_row_len b rd m sf ef af bf bs p (by rwa [hceil])]
    simp only [Option.some.injEq]
    omega
  · have h := yarn_cache_entry b rd m sf ef af bf bs p j (by rwa [hceil])
      (by omega)
    rwa [hmin] at h

/-- Witness for the amended C2 at `base = 10000`, `rotary_dim = 4`,
`max_position_embeddings = 3`, `scaling_factor = 2`,
`effective_max_positions = 6`. -/
theorem C2_cache_shape_witness :
    (4 % 2 = 0 ∧ ((6 : ℕ) : ℝ) = ((3 : ℕ) : ℝ) * 2) ∧
    (LinearScalingRotaryEmbedding.compute_cos_sin_cache 10000 4 3 2).length =
      6 := by
  refine ⟨⟨rfl, by norm_num⟩, ?_⟩
  exact (C2_cache_shape 10000 4 3 2 1 1 32 1 6 rfl (by norm_num)).2.1.1

/-- Claim C3: for the linear-scaling variant the position fed to the outer
product is compressed as `t[p] = p / scaling_factor` over
`p = 0 .. max_position_embeddings * scaling_factor - 1`; consequently, with
`scaling_factor = 2`, the row at position `2p` of the scaled table equals
row `p` of the unscaled base-variant table for every
`p < max_position_embeddings`. -/
theorem C3_linear_compression (b : ℝ) (rd m : ℕ) (sf : ℝ) (eff : ℕ)
    (heff : ((eff : ℕ) : ℝ) = (m : ℝ) * sf) :
    (∀ p j : ℕ, p < eff → j < (rd + 1) / 2 →
      entry2 (LinearScalingRotaryEmbedding.compute_cos_sin_cache b rd m sf)
          p j =
        ((RotaryEmbedding.compute_inv_freq b rd)[j]?).map
          (fun f => Real.cos (((p : ℝ) / sf) * f)) ∧
      entry2 (LinearScalingRotaryEmbedding.compute_cos_sin_cache b rd m sf)
          p ((rd + 1) / 2 + j) =
        ((RotaryEmbedding.compute_inv_freq b rd)[j]?).map
          (fun f => Real.sin (((p : ℝ) / sf) * f))) ∧
    ∀ p : ℕ, p < m →
      (LinearScalingRotaryEmbedding.compute_cos_sin_cache b rd m 2)[2 * p]? =
        (RotaryEmbedding.compute_cos_sin_cache b rd m)[p]? := by
  have hceil : ⌈(m : ℝ) * sf⌉₊ = eff := by rw [← heff, Nat.ceil_natCast]
  constructor
  · intro p j hp hj
    exact linear_cache_entry b rd m sf p j (by rwa [hceil]) hj
  · intro p hp
    have hceil2 : ⌈(m : ℝ) * (2 : ℝ)⌉₊ = 2 * m := by
      rw [show (m : ℝ) * (2 : ℝ) = ((2 * m : ℕ) : ℝ) by push_cast; ring,
        Nat.ceil_natCast]
    have ht : ((2 * p : ℕ) : ℝ) / 2 = (p : ℝ) := by push_cast; ring
    simp only [LinearScalingRotaryEmbedding.compute_cos_sin_cache,
      RotaryEmbedding.compute_cos_sin_cache]
    rw [range_map_getElem _ _ _ (by rw [hceil2]; omega),
      range_map_getElem _ _ _ hp, ht]

/-- Witness for C3 at `base = 10000`, `rotary_dim = 4`,
`max_position_embeddings = 2`, `scaling_factor = 2`, `p = 1`. -/
theorem C3_linear_compression_witness :
    ((4 : ℕ) : ℝ) = ((2 : ℕ) : ℝ) * 2 ∧ 1 < 2 ∧
    (LinearScalingRotaryEmbedding.compute_cos_sin_cache 10000 4 2 2)[2 * 1]? =
      (RotaryEmbedding.compute_cos_sin_cache 10000 4 2)[1]? := by
  refine ⟨by norm_num, by norm_num, ?_⟩
  exact (C3_linear_compression 10000 4 2 2 4 (by norm_num)).2 1 (by norm_num)

/-- Claim C4: for the dynamic-NTK variant with `rotary_dim > 2`, the inverse
frequencies are derived exactly as in the base variant but from the modified
base `base * ((scaling_factor * effective_max / max_position_embeddings) -
(scaling_factor - 1)) ^ (rotary_dim / (rotary_dim - 2))` with
`effective_max = max_position_embeddings * scaling_factor`, and the
positions used for the outer product are the uncompressed integers
`0 .. effective_max - 1` (no division by `scaling_factor`). -/
theorem C4_ntk_modified_base (b : ℝ) (rd m : ℕ) (sf : ℝ) (eff : ℕ)
    (heven : rd % 2 = 0) (hrd : 2 < rd)
    (heff : ((eff : ℕ) : ℝ) = (m : ℝ) * sf) :
    ntk_base b rd m sf =
      b * ((sf * (eff : ℝ) / (m : ℝ)) - (sf - 1)) ^
        ((rd : ℝ) / ((rd : ℝ) - 2)) ∧
    (∀ j : ℕ, j < rd / 2 →
      (RotaryEmbedding.compute_inv_freq (ntk_base b rd m sf) rd)[j]? =
        some (1 / (ntk_base b rd m sf) ^ ((2 * (j : ℝ)) / (rd : ℝ)))) ∧
    ∀ p j : ℕ, p < eff → j < rd / 2 →
      entry2 (DynamicNTKScalingRotaryEmbedding.compute_cos_sin_cache b rd m
          sf) p j =
        some (Real.cos ((p : ℝ) *
          (1 / (ntk_base b rd m sf) ^ ((2 * (j : ℝ)) / (rd : ℝ))))) ∧
      entry2 (DynamicNTKScalingRotaryEmbedding.compute_cos_sin_cache b rd m
          sf) p (rd / 2 + j) =
        some (Real.sin ((p : ℝ) *
          (1 / (ntk_base b rd m sf) ^ ((2 * (j : ℝ)) / (rd : ℝ))))) := by
  have hceil : ⌈(m : ℝ) * sf⌉₊ = eff := by rw [← heff, Nat.ceil_natCast]
  have hfreq : ∀ j : ℕ, j < rd / 2 →
      (RotaryEmbedding.compute_inv_freq (ntk_base b rd m sf) rd)[j]? =
        some (1 / (ntk_base b rd m sf) ^ ((2 * (j : ℝ)) / (rd : ℝ))) :=
    fun j hj => compute_inv_freq_getElem _ rd j (by omega)
  refine ⟨by rw [heff]; rfl, hfreq, fun p j hp hj => ?_⟩
  have h := ntk_cache_entry b rd m sf p j (by rwa [hceil]) (by omega)
  rw [show (rd + 1) / 2 + j = rd / 2 + j by omega] at h
  rw [h.1, h.2, hfreq j hj]
  exact ⟨rfl, rfl⟩

/-- Witness for C4 at `base = 10000`, `rotary_dim = 4`,
`max_position_embeddings = 2`, `scaling_factor = 3`, `eff = 6`. -/
theorem C4_ntk_modified_base_witness :
    (4 % 2 = 0 ∧ 2 < 4 ∧ ((6 : ℕ) : ℝ) = ((2 : ℕ) : ℝ) * 3) ∧
    ntk_base 10000 4 2 3 =
      10000 * ((3 * ((6 : ℕ) : ℝ) / ((2 : ℕ) : ℝ)) - (3 - 1)) ^
        (((4 : ℕ) : ℝ) / (((4 : ℕ) : ℝ) - 2)) := by
  refine ⟨⟨rfl, by norm_num, by norm_num⟩, ?_⟩
  exact (C4_ntk_modified_base 10000 4 2 3 6 rfl (by norm_num) (by norm_num)).1

/-- Claim C5: for every construction with `scaling_factor = 1` (and
`rotary_dim > 2` even, `max_position_embeddings > 0`), the dynamic-NTK
variant's cache table is exactly the base variant's cache table built from
the same `rotary_dim`, `max_position_embeddings`, and `base`. -/
theorem C5_ntk_unit_scale (b : ℝ) (rd m : ℕ) (hrd : 2 < rd)
    (heven : rd % 2 = 0) (hm : 0 < m) :
    DynamicNTKScalingRotaryEmbedding.compute_cos_sin_cache b rd m 1 =
      RotaryEmbedding.compute_cos_sin_cache b rd m := by
  have hm' : (m : ℝ) ≠ 0 := Nat.cast_ne_zero.mpr (by omega)
  simp only [DynamicNTKScalingRotaryEmbedding.compute_cos_sin_cache,
    RotaryEmbedding.compute_cos_sin_cache, mul_one, one_mul, sub_self,
    sub_zero, div_self hm', Real.one_rpow, Nat.ceil_natCast]

/-- Witness for C5 at `base = 10000`, `rotary_dim = 4`,
`max_position_embeddings = 3`. -/
theorem C5_ntk_unit_scale_witness :
    (2 < 4 ∧ 4 % 2 = 0 ∧ 0 < 3) ∧
    DynamicNTKScalingRotaryEmbedding.compute_cos_sin_cache 10000 4 3 1 =
      RotaryEmbedding.compute_cos_sin_cache 10000 4 3 :=
  ⟨⟨by norm_num, rfl, by norm_num⟩,
    C5_ntk_unit_scale 10000 4 3 (by norm_num) rfl (by norm_num)⟩

/-- Claim C6: the YaRN correction range is
`low = floor(dim(beta_fast))` clamped to `≥ 0` and
`high = ceil(dim(beta_slow))` clamped to `≤ rotary_dim - 1`, where
`dim(r) = rotary_dim * ln(max_position_embeddings / (r * 2 * π)) /
(2 * ln base)`, with `beta_fast` supplied as the low-rotation argument and
`beta_slow` as the high-rotation argument. -/
theorem C6_yarn_correction_range (beta_fast beta_slow b : ℝ) (rd m : ℕ) :
    yarn_find_correction_range beta_fast beta_slow rd b m =
      (max ⌊((rd : ℝ) * Real.log ((m : ℝ) / (beta_fast * 2 * Real.pi))) /
          (2 * Real.log b)⌋ 0,
        min ⌈((rd : ℝ) * Real.log ((m : ℝ) / (beta_slow * 2 * Real.pi))) /
          (2 * Real.log b)⌉ ((rd : ℤ) - 1)) := rfl

/-- Claim C7: for the YaRN variant and every half-channel index
`j < rotary_dim / 2`, the blended inverse frequency equals
`inv_freq_interp[j] * (1 - inv_freq_mask[j]) +
inv_freq_extrap[j] * inv_freq_mask[j]`, where
`inv_freq_mask[j] = (1 - clamp((j - low) / (high - low), 0, 1)) *
extrapolation_factor` and, when `low = high`, the denominator is replaced
by `0.001` (the `+0.001` nudge of `high`), so the ramp is always well
defined. -/
theorem C7_yarn_blended_inv_freq (b : ℝ) (rd m : ℕ) (bf bs ef sf : ℝ)
    (heven : rd % 2 = 0) (j : ℕ) (hj : j < rd / 2) (lo hi : ℤ)
    (hrange : yarn_find_correction_range bf bs rd b m = (lo, hi)) (mask : ℝ)
    (hmask : mask =
      (1 - min (max (((j : ℝ) - (lo : ℝ)) /
          (if lo = hi then (0.001 : ℝ) else (hi : ℝ) - (lo : ℝ))) 0) 1) * ef) :
    (YaRNScalingRotaryEmbedding.compute_inv_freq b rd m bf bs ef sf)[j]? =
      some ((1 / (sf * b ^ ((2 * (j : ℝ)) / (rd : ℝ)))) * (1 - mask) +
        (1 / b ^ ((2 * (j : ℝ)) / (rd : ℝ))) * mask) := by
  subst hmask
  have hj2 : j < (rd + 1) / 2 := by omega
  have hden : ((if (lo : ℝ) = (hi : ℝ) then (hi : ℝ) + 0.001 else (hi : ℝ)) -
        (lo : ℝ)) =
      (if lo = hi then (0.001 : ℝ) else (hi : ℝ) - (lo : ℝ)) := by
    by_cases h : lo = hi
    · subst h
      rw [if_pos rfl, if_pos rfl]
      ring
    · rw [if_neg fun hc => h (by exact_mod_cast hc), if_neg h]
  simp only [YaRNScalingRotaryEmbedding.compute_inv_freq, hrange,
    yarn_linear_ramp_mask]
  refine zipWith_getElem_some _ _ _ j _ _ ?_ ?_ <;>
    refine zipWith_getElem_some _ _ _ j _ _ ?_ ?_
  · rw [List.getElem?_map, List.getElem?_map, List.getElem?_range hj2]
    rfl
  · rw [List.getElem?_map, List.getElem?_map, List.getElem?_range hj, hden]
    rfl
  · rw [List.getElem?_map, List.getElem?_map, List.getElem?_range hj2]
    rfl
  · rw [List.getElem?_map, List.getElem?_map, List.getElem?_range hj, hden]
    rfl

/-- Witness for C7 at `base = 10000`, `rotary_dim = 4`,
`max_position_embeddings = 16`, `beta_fast = 32`, `beta_slow = 1`,
`extrapolation_factor = 1`, `scaling_factor = 2`, `j = 1`. -/
theorem C7_yarn_blended_inv_freq_witness :
    4 % 2 = 0 ∧ 1 < 4 / 2 ∧
    (YaRNScalingRotaryEmbedding.compute_inv_freq 10000 4 16 32 1 1 2)[1]? =
      some ((1 / (2 * (10000 : ℝ) ^ ((2 * ((1 : ℕ) : ℝ)) / ((4 : ℕ) : ℝ)))) *
          (1 -
            (1 - min (max ((((1 : ℕ) : ℝ) -
                (((yarn_find_correction_range 32 1 4 10000 16).1 : ℤ) : ℝ)) /
                (if (yarn_find_correction_range 32 1 4 10000 16).1 =
                    (yarn_find_correction_range 32 1 4 10000 16).2 then
                  (0.001 : ℝ)
                else (((yarn_find_correction_range 32 1 4 10000 16).2 : ℤ) : ℝ) -
                  (((yarn_find_correction_range 32 1 4 10000 16).1 : ℤ) : ℝ)))
                0) 1) * 1) +
        (1 / (10000 : ℝ) ^ ((2 * ((1 : ℕ) : ℝ)) / ((4 : ℕ) : ℝ))) *
          ((1 - min (max ((((1 : ℕ) : ℝ) -
              (((yarn_find_correction_range 32 1 4 10000 16).1 : ℤ) : ℝ)) /
              (if (yarn_find_correction_range 32 1 4 10000 16).1 =
                  (yarn_find_correction_range 32 1 4 10000 16).2 then
                (0.001 : ℝ)
              else (((yarn_find_correction_range 32 1 4 10000 16).2 : ℤ) : ℝ) -
                (((yarn_find_correction_range 32 1 4 10000 16).1 : ℤ) : ℝ)))
              0) 1) * 1)) :=
  ⟨rfl, by norm_num,
    C7_yarn_blended_inv_freq 10000 4 16 32 1 1 2 rfl 1 (by norm_num)
      (yarn_find_correction_range 32 1 4 10000 16).1
      (yarn_find_correction_range 32 1 4 10000 16).2 rfl _ rfl⟩

/-- Claim C8: for the YaRN variant,
`mscale = attn_factor * (1.0 if scaling_factor ≤ 1 else
0.1 * ln(scaling_factor) + 1.0)` is computed once, every cosine and sine
entry of the cache table is multiplied by `mscale`, and for
`scaling_factor = 1` the factor `mscale` equals `attn_factor`. -/
theorem C8_yarn_mscale (b : ℝ) (rd m : ℕ) (sf ef af bf bs : ℝ)
    (heven : rd % 2 = 0) :
    yarn_get_mscale sf * af =
      af * (if sf ≤ 1 then (1 : ℝ) else 0.1 * Real.log sf + 1) ∧
    (sf = 1 → yarn_get_mscale sf * af = af) ∧
    ∀ p j : ℕ, p < ⌈(m : ℝ) * sf⌉₊ → j < rd / 2 →
      entry2 (YaRNScalingRotaryEmbedding.compute_cos_sin_cache b rd m sf ef
          af bf bs) p j =
        ((YaRNScalingRotaryEmbedding.compute_inv_freq b rd m bf bs ef
          sf)[j]?).map
          (fun f => Real.cos ((p : ℝ) * f) * (yarn_get_mscale sf * af)) ∧
      entry2 (YaRNScalingRotaryEmbedding.compute_cos_sin_cache b rd m sf ef
          af bf bs) p (rd / 2 + j) =
        ((YaRNScalingRotaryEmbedding.compute_inv_freq b rd m bf bs ef
          sf)[j]?).map
          (fun f => Real.sin ((p : ℝ) * f) * (yarn_get_mscale sf * af)) := by
  have hmin : min ((rd + 1) / 2) (rd / 2) = rd / 2 := by omega
  refine ⟨?_, ?_, fun p j hp hj => ?_⟩
  · unfold yarn_get_mscale
    by_cases h : sf ≤ 1
    · rw [if_pos h, if_pos h]
      have h1 : (1.0 : ℝ) = 1 := by norm_num
      rw [h1]
      ring
    · rw [if_neg h, if_neg h]
      ring
  · intro h
    subst h
    norm_num [yarn_get_mscale]
  · have h := yarn_cache_entry b rd m sf ef af bf bs p j hp (by omega)
    rwa [hmin] at h

/-- Witness for C8 at `rotary_dim = 4`, `scaling_factor = 1`,
`attn_factor = 5`. -/
theorem C8_yarn_mscale_witness :
    4 % 2 = 0 ∧ yarn_get_mscale 1 * 5 = 5 :=
  ⟨rfl, (C8_yarn_mscale 10000 4 8 1 1 5 32 1 rfl).2.1 rfl⟩

/-- Claim C9 is contradicted by the code: with the odd `rotary_dim = 3`
(`base = 10000`, `max_position_embeddings = 2`), construction raises no
error and does build a cache — it has `2` rows of width `4 = rotary_dim + 1`
(the `(3 + 1) / 2 = 2` half-channels each contribute one cosine and one
sine column). -/
theorem C9_odd_rotary_dim_builds_cache :
    (RotaryEmbedding.compute_cos_sin_cache 10000 3 2).length = 2 ∧
    row_len (RotaryEmbedding.compute_cos_sin_cache 10000 3 2) 0 = some 4 := by
  refine ⟨base_cache_length 10000 3 2, ?_⟩
  rw [base_cache_row_len 10000 3 2 0 (by norm_num)]

/-- Claim C10: the pair `(low, high)` returned by the YaRN correction-range
computation always satisfies `low ≥ 0` and `high ≤ dim - 1`, and it does
not guarantee `low ≤ high` after clamping: at
`(low_rot, high_rot, dim, base, max_position_embeddings) = (32, 1, 2, 4, 1)`
the returned `high` is below the returned `low`. -/
theorem C10_correction_range_clamped (low_rot high_rot b : ℝ) (d m : ℕ) :
    0 ≤ (yarn_find_correction_range low_rot high_rot d b m).1 ∧
    (yarn_find_correction_range low_rot high_rot d b m).2 ≤ (d : ℤ) - 1 ∧
    (yarn_find_correction_range 32 1 2 4 1).2 <
      (yarn_find_correction_range 32 1 2 4 1).1 := by
  refine ⟨le_max_right _ 0, min_le_right _ _, ?_⟩
  have hlog4 : 0 < Real.log 4 := Real.log_pos (by norm_num)
  have hpi : (4 : ℝ) ≤ 1 * 2 * Real.pi := by
    have h3 : (3 : ℝ) < Real.pi := Real.pi_gt_three
    nlinarith
  have hdim : yarn_find_correction_dim 1 2 4 1 ≤ -1 := by
    unfold yarn_find_correction_dim
    have hlog : Real.log 4 ≤ Real.log (1 * 2 * Real.pi) :=
      Real.log_le_log (by norm_num) hpi
    have hloginv : Real.log ((1 : ℝ) / (1 * 2 * Real.pi)) =
        -Real.log (1 * 2 * Real.pi) := by
      rw [one_div, Real.log_inv]
    push_cast
    rw [hloginv, div_le_iff₀ (by positivity)]
    nlinarith
  have hhigh : (yarn_find_correction_range 32 1 2 4 1).2 ≤ -1 := by
    unfold yarn_find_correction_range
    simp only
    refine le_trans (min_le_left _ _) ?_
    exact_mod_cast Int.ceil_le.mpr (by exact_mod_cast hdim)
  have hlow : (0 : ℤ) ≤ (yarn_find_correction_range 32 1 2 4 1).1 :=
    le_max_right _ 0
  omega
